import Mathlib

/-!
Verification of the kuddelmuddel analytics pipeline (event acquisition,
normalization, interval reconstruction, and dispute identity resolution).

The Rust source is shallowly embedded as follows:
* `u32` fields are modelled as `Nat`; the only place where u32 wrap-around
  matters (the backward block cursor decrement `block_num -= 1` in
  `fetch_inclusion_events`) is modelled explicitly by `wrap_dec`, which wraps
  modulo `2 ^ 32` exactly as release-mode Rust does.
* Rust strings are byte sequences; the event `params` blobs handled here are
  ASCII JSON, so they are modelled as `List Char` with byte index = char index.
* A Rust panic (out-of-bounds slice or `Vec::remove` on an empty vector,
  out-of-range indexing in the final join) is modelled as an explicit
  `panic`/`none`/`true`-flag outcome, never as a default value.
* The network is modelled as a total `provider` function: one page of already
  deserialized records per request.  Transport and deserialization failures
  abort the whole fetch in the source (`?` operator) and are outside the scope
  of the claims below, so the provider is total.
* The `tokio::time::sleep(150ms)` calls and the page requests are recorded in
  an explicit `Action` trace so that temporal claims about the delay schedule
  become claims about the shape of that trace.
* The fetch loops in the source are `while` loops with no built-in bound, so
  they are embedded with an explicit `fuel` parameter; `FetchResult.fuelOut`
  means the loop was still running when the fuel ran out.
-/

namespace Kuddelmuddel

/-- Model of `InclusionEvent` from `main.rs`: `{block_num: u32, para_id: u32, included: bool}`,
with the derived lexicographic order on (block_num, para_id, included). -/
structure InclusionEvent where
  block_num : Nat
  para_id : Nat
  included : Bool
deriving DecidableEq, Repr

/-- The derived Rust `Ord` on `InclusionEvent`: lexicographic on
(block_num, para_id, included) with `false < true`.  Non-strict version. -/
def InclusionEvent.le (a b : InclusionEvent) : Bool :=
  decide (a.block_num < b.block_num) ||
    (decide (a.block_num = b.block_num) &&
      (decide (a.para_id < b.para_id) ||
        (decide (a.para_id = b.para_id) && (!a.included || b.included))))

/-- Strict version of the derived lexicographic order on `InclusionEvent`. -/
def InclusionEvent.lt (a b : InclusionEvent) : Bool :=
  decide (a.block_num < b.block_num) ||
    (decide (a.block_num = b.block_num) &&
      (decide (a.para_id < b.para_id) ||
        (decide (a.para_id = b.para_id) && (!a.included && b.included))))

/-- Model of `events::inclusion::EventId` from `subscan.rs`. -/
inductive EventId where
  | CandidateIncluded
  | CandidateBacked
  | CandidateTimedOut
deriving DecidableEq, Repr

/-- Model of `events::inclusion::Event` from `subscan.rs`: a raw indexing-API record with
an opaque `params` string (modelled as a char list, see the header). -/
structure RawInclusionEvent where
  block_num : Nat
  event_id : EventId
  params : List Char
deriving DecidableEq, Repr

/-- Outcome of normalizing one raw event.  `panic` models a Rust panic
(the out-of-bounds string slice `&params[idx..idx + 4]`); `discard` models
`Err(())` which the fetch loop turns into a skipped record. -/
inductive ExtractResult where
  | panic
  | discard
  | ok (event : InclusionEvent)
deriving DecidableEq, Repr

/-- The literal marker substring `"para_id":` searched for in `params`. -/
def marker : List Char := "\"para_id\":".toList

/-- Model of `str::find` for a literal pattern: index of the first position where
`pat` is a prefix of the remaining suffix. -/
def findSubstr (pat : List Char) : List Char → Option Nat
  | [] => if pat.isPrefixOf ([] : List Char) then some 0 else none
  | c :: rest =>
    if pat.isPrefixOf (c :: rest) then some 0
    else (findSubstr pat rest).map (· + 1)

/-- Model of `u32::from_str` restricted to the 4-character slices it is applied to here:
an optional leading `+` sign followed by at least one decimal digit.
(4 decimal digits cannot overflow a u32, so no overflow case is needed.) -/
def u32_from_str (s : List Char) : Option Nat :=
  let digits := match s with
    | '+' :: rest => rest
    | _ => s
  if digits.isEmpty then none
  else if digits.all Char.isDigit then
    some (digits.foldl (fun acc c => acc * 10 + (c.toNat - 48)) 0)
  else none

/-- Model of `TryFrom<events::inclusion::Event> for InclusionEvent` from `subscan.rs`:
find the `"para_id":` marker (miss ⇒ discard), slice the following 4 bytes
(out of bounds ⇒ panic), parse them as a decimal integer (failure ⇒ discard),
then classify the event kind (`CandidateTimedOut` ⇒ discard). -/
def try_from (event : RawInclusionEvent) : ExtractResult :=
  match findSubstr marker event.params with
  | none => .discard
  | some i =>
    let idx := i + marker.length
    if event.params.length < idx + 4 then .panic
    else
      match u32_from_str ((event.params.drop idx).take 4) with
      | none => .discard
      | some para_id =>
        match event.event_id with
        | .CandidateIncluded => .ok ⟨event.block_num, para_id, true⟩
        | .CandidateBacked => .ok ⟨event.block_num, para_id, false⟩
        | .CandidateTimedOut => .discard

/-- The `InclusionEvent::try_from(e).ok()` projection used by the fetch loop. -/
def try_from_ok (e : RawInclusionEvent) : Option InclusionEvent :=
  match try_from e with
  | .ok ev => some ev
  | _ => none

/-- Model of `InclusionPlottingPoint` from `main.rs`. -/
structure InclusionPlottingPoint where
  block_num : Nat
  blocks : Nat
deriving DecidableEq, Repr

/-- The pairing loop of `handle_inclusion` in `main.rs`: a single forward pass
with running state `last_backed`/`last_included`, producing
`(backing_times, inclusion_times)`.  `saturating_sub` on u32 is `Nat.sub`. -/
def inclusion_loop : Option Nat → Option Nat → List InclusionEvent →
    List InclusionPlottingPoint × List InclusionPlottingPoint
  | _, _, [] => ([], [])
  | last_backed, last_included, e :: rest =>
    if e.included then
      let pts := inclusion_loop last_backed (some e.block_num) rest
      match last_backed with
      | some b => (pts.1, ⟨e.block_num, e.block_num - b⟩ :: pts.2)
      | none => pts
    else
      let pts := inclusion_loop (some e.block_num) last_included rest
      match last_included with
      | some i => (⟨e.block_num, e.block_num - i⟩ :: pts.1, pts.2)
      | none => pts

/-- The interval-reconstruction part of `handle_inclusion` in `main.rs`:
re-filter by the target `para_id`, then run the pairing loop. -/
def handle_inclusion (para_id : Nat) (events : List InclusionEvent) :
    List InclusionPlottingPoint × List InclusionPlottingPoint :=
  inclusion_loop none none (events.filter fun e => e.para_id == para_id)

/-! ### The fetch loops -/

/-- One observable step of a fetch loop: a page request (annotated with the
query point — block number or page index — and the number of events the page
yielded after normalization and filtering) or the 150ms rate-limit sleep. -/
inductive Action where
  | request (at_point : Nat) (yielded : Nat)
  | sleep
deriving DecidableEq, Repr

/-- Whether an action is a page request. -/
def Action.isRequest : Action → Bool
  | .request _ _ => true
  | .sleep => false

/-- Number of page requests recorded in a trace. -/
def requestCount (tr : List Action) : Nat :=
  tr.countP Action.isRequest

/-- The query points of the requests in a trace, in order. -/
def requestPoints : List Action → List Nat
  | [] => []
  | .request c _ :: rest => c :: requestPoints rest
  | .sleep :: rest => requestPoints rest

/-- Outcome of a fetch loop: normal exit with the accumulated events, a Rust
panic while normalizing a page, or fuel exhaustion (the source loop is still
running). -/
inductive FetchResult (α : Type) where
  | ok (events : List α)
  | panicked
  | fuelOut
deriving DecidableEq

/-- Whether a fetch finished normally. -/
def FetchResult.isOk {α : Type} : FetchResult α → Bool
  | .ok _ => true
  | _ => false

/-- The u32 modulus `2 ^ 32`. -/
def U32_MOD : Nat := 2 ^ 32

/-- The u32 decrement `block_num -= 1` of the backward cursor, with
release-mode wrap-around at zero. -/
def wrap_dec (c : Nat) : Nat :=
  if c = 0 then U32_MOD - 1 else c - 1

/-- Processing of one page in `fetch_inclusion_events`:
`flat_map(|e| InclusionEvent::try_from(e).ok()).filter(|e| e.para_id == para_id)`.
`none` models a panic raised by `try_from` on some record of the page. -/
def processPage (page : List RawInclusionEvent) (para_id : Nat) :
    Option (List InclusionEvent) :=
  if page.any (fun e => decide (try_from e = .panic)) then none
  else some ((page.filterMap try_from_ok).filter fun e => e.para_id == para_id)

/-- The `while events.len() < enough_events` loop of `fetch_inclusion_events`
in `subscan.rs`: request the page pinned to `cursor`, normalize and filter it,
decrement the cursor (u32 wrap-around), append, sleep 150ms, repeat. -/
def fetch_inclusion_loop (provider : Nat → List RawInclusionEvent)
    (para_id enough : Nat) :
    Nat → List InclusionEvent → Nat → FetchResult InclusionEvent × List Action
  | 0, _, _ => (.fuelOut, [])
  | fuel + 1, acc, cursor =>
    if enough ≤ acc.length then (.ok acc, [])
    else
      match processPage (provider cursor) para_id with
      | none => (.panicked, [.request cursor 0])
      | some newEvents =>
        let r := fetch_inclusion_loop provider para_id enough fuel
          (acc ++ newEvents) (wrap_dec cursor)
        (r.1, .request cursor newEvents.length :: .sleep :: r.2)

/-- Model of `fetch_inclusion_events` from `subscan.rs`: run the paging loop starting at
`up_to_block`, then `reverse`, `sort` and `dedup`.  `Vec::sort` is a stable
sort by the derived `Ord`; it is embedded as a stable insertion sort, which
computes the same list as any stable sort by the same total preorder.
`Vec::dedup` removes consecutive duplicates, i.e. `destutter (· ≠ ·)`. -/
def fetch_inclusion_events (provider : Nat → List RawInclusionEvent)
    (para_id enough fuel up_to_block : Nat) :
    FetchResult InclusionEvent × List Action :=
  match fetch_inclusion_loop provider para_id enough fuel [] up_to_block with
  | (.ok events, tr) =>
    (.ok ((events.reverse.insertionSort fun a b => a.le b = true).destutter
      (· ≠ ·)), tr)
  | r => r

/-- Model of `events::disputes::Event` from `subscan.rs`:
`{block_num: u32, extrinsic_idx: u32}` with the derived lexicographic order. -/
structure DisputeEvent where
  block_num : Nat
  extrinsic_idx : Nat
deriving DecidableEq, Repr

/-- The derived Rust `Ord` on `DisputeEvent` (non-strict). -/
def DisputeEvent.le (a b : DisputeEvent) : Bool :=
  decide (a.block_num < b.block_num) ||
    (decide (a.block_num = b.block_num) &&
      decide (a.extrinsic_idx ≤ b.extrinsic_idx))

/-- The `while disputes_initiated.len() < enough_events` loop of
`fetch_disputes_events` in `subscan.rs`: request the page at index `page`,
advance the page index, break on an empty page (before the sleep), otherwise
append and sleep 150ms.  The provider abstracts the indexing API restricted to
the fixed 400000-block backward window of the request body. -/
def fetch_disputes_loop (provider : Nat → List DisputeEvent) (enough : Nat) :
    Nat → List DisputeEvent → Nat → FetchResult DisputeEvent × List Action
  | 0, _, _ => (.fuelOut, [])
  | fuel + 1, acc, page =>
    if enough ≤ acc.length then (.ok acc, [])
    else
      let newEvents := provider page
      if newEvents.isEmpty then (.ok acc, [.request page 0])
      else
        let r := fetch_disputes_loop provider enough fuel (acc ++ newEvents)
          (page + 1)
        (r.1, .request page newEvents.length :: .sleep :: r.2)

/-- Model of `fetch_disputes_events` from `subscan.rs`: run the paging loop from page 0,
then `sort` (stable, by the derived `Ord`, embedded as a stable insertion
sort) and `dedup` (`destutter (· ≠ ·)`). -/
def fetch_disputes_events (provider : Nat → List DisputeEvent)
    (enough fuel : Nat) : FetchResult DisputeEvent × List Action :=
  match fetch_disputes_loop provider enough fuel [] 0 with
  | (.ok events, tr) =>
    (.ok ((events.insertionSort fun a b => a.le b = true).destutter (· ≠ ·)), tr)
  | r => r

/-! ### The dispute resolver -/

/-- Model of `extrinsic::parainherent::DisputeVoteKind` from `subscan.rs`. -/
inductive DisputeVoteKind where
  | Invalid
  | Valid
deriving DecidableEq, Repr

/-- Model of `extrinsic::parainherent::DisputeVote` from `subscan.rs`: `kind` is the
key set of the `col1` map (a statement qualifies iff it contains `Invalid`),
`validator_index` is `col2`. -/
structure DisputeVote where
  kind : List DisputeVoteKind
  validator_index : Nat
deriving DecidableEq, Repr

/-- Model of `extrinsic::parainherent::DisputeVotes` from `subscan.rs`. -/
structure DisputeVotes where
  session : Nat
  statements : List DisputeVote
deriving DecidableEq, Repr

/-- Model of `extrinsic::parainherent::Data` from `subscan.rs`: the `params` vector of a
non-null extrinsic response; each entry is collapsed to its `value.disputes`
list, the only field the code reads. -/
structure ExtrinsicData where
  params : List (List DisputeVotes)
deriving DecidableEq, Repr

/-- Model of `DisputeInitiated` from `subscan.rs`. -/
structure DisputeInitiated where
  session_index : Nat
  block_num : Nat
  validator_index : Nat
deriving DecidableEq, Repr

/-- The row fan-out of one extrinsic in `fetch_dispute_initiators`: for every
session's vote list, every statement whose kind set contains `Invalid` yields
one `DisputeInitiated` row. -/
def dispute_rows (block_num : Nat) (disputes : List DisputeVotes) :
    List DisputeInitiated :=
  disputes.flatMap fun votes =>
    votes.statements.filterMap fun vote =>
      if DisputeVoteKind.Invalid ∈ vote.kind then
        some ⟨votes.session, block_num, vote.validator_index⟩
      else none

/-- Model of `fetch_dispute_initiators` from `subscan.rs`.  The extrinsic endpoint is
abstracted as `fetch_extrinsic`; a `none` response models `data: null` and is
skipped with a diagnostic.  On a non-null response the code runs
`data.params.remove(0)`, which panics when `params` is empty: the overall
result `none` models that panic. -/
def fetch_dispute_initiators (fetch_extrinsic : DisputeEvent → Option ExtrinsicData) :
    List DisputeEvent → Option (List DisputeInitiated)
  | [] => some []
  | ev :: rest =>
    match fetch_extrinsic ev with
    | none => fetch_dispute_initiators fetch_extrinsic rest
    | some data =>
      match data.params with
      | [] => none
      | ps :: _ =>
        (fetch_dispute_initiators fetch_extrinsic rest).map
          (dispute_rows ev.block_num ps ++ ·)

/-- The loop body of `historical_account_keys` from `subxt.rs`, with the
`BTreeMap` modelled as an association list and an explicit log (in order) of
the sessions for which the external storage lookup was invoked.  A vacant
entry triggers the lookup; only a `some` result populates the entry — a `none`
result leaves the entry vacant. -/
def historical_account_keys_go {A H : Type} (lookup : Nat → H → Option (List A)) :
    List (Nat × H) → List (Nat × List A) → List (Nat × List A) × List Nat
  | [], map => (map, [])
  | (session, block_hash) :: rest, map =>
    match map.lookup session with
    | some _ => historical_account_keys_go lookup rest map
    | none =>
      match lookup session block_hash with
      | some keys =>
        let r := historical_account_keys_go lookup rest (map ++ [(session, keys)])
        (r.1, session :: r.2)
      | none =>
        let r := historical_account_keys_go lookup rest map
        (r.1, session :: r.2)

/-- Model of `historical_account_keys` from `subxt.rs`: fold the `(session, block_hash)`
input through the memoizing loop starting from the empty map.  Returns the
final map together with the log of external lookup invocations. -/
def historical_account_keys {A H : Type} (lookup : Nat → H → Option (List A))
    (input : List (Nat × H)) : List (Nat × List A) × List Nat :=
  historical_account_keys_go lookup input []

/-- Model of `DisputeInitiator` from `main.rs`, generic over the account identity type. -/
structure DisputeInitiator (A : Type) where
  session_index : Nat
  account_id : A
deriving DecidableEq, Repr

/-- The per-row join of `handle_disputes` in `main.rs`:
`account_map[&i.session_index][i.validator_index as usize]`.
`none` models the panic of indexing a missing map key or an out-of-range
validator index. -/
def resolve_initiator {A : Type} (account_map : Nat → Option (List A))
    (i : DisputeInitiated) : Option (DisputeInitiator A) :=
  (account_map i.session_index).bind fun keys =>
    (keys[i.validator_index]?).map fun account_id => ⟨i.session_index, account_id⟩

/-- The output stage of `handle_disputes` in `main.rs`: the lazily mapped join
is consumed row by row by the CSV writer, so rows before the first failing row
are written and a failing row panics.  Returns the written rows and a flag
that is `true` iff the run panicked. -/
def handle_disputes_join {A : Type} (account_map : Nat → Option (List A)) :
    List DisputeInitiated → List (DisputeInitiator A) × Bool
  | [] => ([], false)
  | i :: rest =>
    match resolve_initiator account_map i with
    | none => ([], true)
    | some r =>
      let out := handle_disputes_join account_map rest
      (r :: out.1, out.2)

/-! ### Auxiliary predicates and functions used to state the claims -/

/-- Boolean check that every `request` action in a trace is immediately
followed by a `sleep` action (the 150ms rate-limit delay). -/
def delayAfterEveryRequest : List Action → Bool
  | [] => true
  | .sleep :: rest => delayAfterEveryRequest rest
  | .request _ _ :: rest =>
    match rest with
    | .sleep :: _ => delayAfterEveryRequest rest
    | _ => false

/-- Boolean check that every `request` action in a trace is immediately
followed by a `sleep` action, except that a final request that yielded zero
events may end the trace unfollowed. -/
def delayExceptFinalEmpty : List Action → Bool
  | [] => true
  | .sleep :: rest => delayExceptFinalEmpty rest
  | .request _ n :: rest =>
    match rest with
    | [] => decide (n = 0)
    | .sleep :: _ => delayExceptFinalEmpty rest
    | _ => false

/-- The sequence of cursor values produced by iterating the wrapping u32
decrement, starting from `c`: the block numbers pinned by the successive page
requests of `fetch_inclusion_events`. -/
def cursorIter : Nat → Nat → List Nat
  | 0, _ => []
  | k + 1, c => c :: cursorIter k (wrap_dec c)

/-- Iteration of the wrapping u32 decrement, `k` times. -/
def wrapIter : Nat → Nat → Nat
  | 0, c => c
  | k + 1, c => wrapIter k (wrap_dec c)

/-! ## Helper lemmas -/

theorem InclusionEvent.le_iff (a b : InclusionEvent) : a.le b = true ↔
    (a.block_num < b.block_num ∨
      (a.block_num = b.block_num ∧
        (a.para_id < b.para_id ∨
          (a.para_id = b.para_id ∧ (a.included = false ∨ b.included = true))))) := by
  simp [InclusionEvent.le, Bool.or_eq_true, Bool.and_eq_true, decide_eq_true_eq,
    Bool.not_eq_true']

theorem InclusionEvent.lt_iff (a b : InclusionEvent) : a.lt b = true ↔
    (a.block_num < b.block_num ∨
      (a.block_num = b.block_num ∧
        (a.para_id < b.para_id ∨
          (a.para_id = b.para_id ∧ (a.included = false ∧ b.included = true))))) := by
  simp [InclusionEvent.lt, Bool.or_eq_true, Bool.and_eq_true, decide_eq_true_eq,
    Bool.not_eq_true']

theorem InclusionEvent.le_total_bool (a b : InclusionEvent) : a.le b || b.le a := by
  simp only [Bool.or_eq_true, InclusionEvent.le_iff]
  rcases a with ⟨ab, ap, ai⟩
  rcases b with ⟨bb, bp, bi⟩
  cases ai <;> cases bi <;> simp <;> omega

theorem InclusionEvent.le_trans_bool (a b c : InclusionEvent) :
    a.le b → b.le c → a.le c := by
  simp only [InclusionEvent.le_iff]
  rcases a with ⟨ab, ap, ai⟩
  rcases b with ⟨bb, bp, bi⟩
  rcases c with ⟨cb, cp, ci⟩
  cases ai <;> cases bi <;> cases ci <;> simp <;> omega

theorem InclusionEvent.lt_trans_prop (a b c : InclusionEvent) :
    a.lt b = true → b.lt c = true → a.lt c = true := by
  simp only [InclusionEvent.lt_iff]
  rcases a with ⟨ab, ap, ai⟩
  rcases b with ⟨bb, bp, bi⟩
  rcases c with ⟨cb, cp, ci⟩
  cases ai <;> cases bi <;> cases ci <;> simp <;> omega

theorem InclusionEvent.lt_of_le_of_ne {a b : InclusionEvent}
    (hle : a.le b = true) (hne : a ≠ b) : a.lt b = true := by
  rcases a with ⟨ab, ap, ai⟩
  rcases b with ⟨bb, bp, bi⟩
  simp only [InclusionEvent.le_iff, InclusionEvent.lt_iff] at *
  simp only [ne_eq, InclusionEvent.mk.injEq, not_and] at hne
  cases ai <;> cases bi <;> simp_all <;> omega

theorem InclusionEvent.ne_of_lt {a b : InclusionEvent} (h : a.lt b = true) :
    a ≠ b := by
  intro heq
  subst heq
  rcases a with ⟨ab, ap, ai⟩
  simp only [InclusionEvent.lt_iff] at h
  cases ai <;> simp_all

/-- Pointwise conjunction of two `Chain'` facts on the same list. -/
theorem chain'_and {α : Type} {R S : α → α → Prop} :
    ∀ (l : List α), l.Chain' R → l.Chain' S →
      l.Chain' (fun a b => R a b ∧ S a b)
  | [], _, _ => List.chain'_nil
  | [_], _, _ => List.chain'_singleton _
  | a :: b :: l, hR, hS => by
    rw [List.chain'_cons] at hR hS ⊢
    exact ⟨⟨hR.1, hS.1⟩, chain'_and (b :: l) hR.2 hS.2⟩

/-! ## Claims -/

/-- C4: for the sorted input `[{10,1,false},{12,1,true},{15,1,false},{20,1,true}]`
with target para_id 1, the interval reconstructor outputs inclusion latencies
`[{12,2},{20,5}]` and backing latencies `[{15,3}]`; the first `included=false`
event at block 10 produces no backing point because no prior `included=true`
event exists. -/
theorem C4_pairing :
    handle_inclusion 1
        [⟨10, 1, false⟩, ⟨12, 1, true⟩, ⟨15, 1, false⟩, ⟨20, 1, true⟩] =
      ([⟨15, 3⟩], [⟨12, 2⟩, ⟨20, 5⟩]) := by
  decide

/-- C5, counterexample: the claim says that when fewer than 4 characters remain
after the `"para_id":` marker the result is `Discard` and normalization never
fails in any other way; but on `params = "\"para_id\":12"` the slice
`&params[idx..idx + 4]` is out of bounds and the code panics. -/
theorem C5_counterexample :
    try_from ⟨1, .CandidateIncluded, "\"para_id\":12".toList⟩ = .panic ∧
    ExtractResult.panic ≠ ExtractResult.discard := by
  exact ⟨by decide, by decide⟩

/-- C5, amended: normalization returns `Discard` when the marker is absent;
it panics (out-of-bounds string slice) exactly when the marker is present but
fewer than 4 characters follow it; when 4 characters are present but do not
parse as a decimal integer it returns `Discard`; and when they do parse it
returns the typed event (or `Discard` for `CandidateTimedOut`). -/
theorem C5_amended (e : RawInclusionEvent) :
    (findSubstr marker e.params = none → try_from e = .discard) ∧
    (try_from e = .panic ↔
      ∃ i, findSubstr marker e.params = some i ∧
        e.params.length < i + marker.length + 4) ∧
    (∀ i, findSubstr marker e.params = some i →
      i + marker.length + 4 ≤ e.params.length →
      u32_from_str ((e.params.drop (i + marker.length)).take 4) = none →
      try_from e = .discard) ∧
    (∀ i p, findSubstr marker e.params = some i →
      i + marker.length + 4 ≤ e.params.length →
      u32_from_str ((e.params.drop (i + marker.length)).take 4) = some p →
      (e.event_id = .CandidateIncluded →
        try_from e = .ok ⟨e.block_num, p, true⟩) ∧
      (e.event_id = .CandidateBacked →
        try_from e = .ok ⟨e.block_num, p, false⟩) ∧
      (e.event_id = .CandidateTimedOut → try_from e = .discard)) := by
  unfold try_from
  rcases hf : findSubstr marker e.params with _ | i
  · refine ⟨fun _ => rfl, by simp, ?_, ?_⟩
    · intro i hi
      cases hi
    · intro i p hi
      cases hi
  · dsimp only
    by_cases hlen : e.params.length < i + marker.length + 4
    · rw [if_pos hlen]
      refine ⟨?_, ?_, ?_, ?_⟩
      · intro h
        cases h
      · exact ⟨fun _ => ⟨i, rfl, hlen⟩, fun _ => rfl⟩
      · intro j hj hle _
        injection hj with hj
        subst hj
        exact absurd hle (by omega)
      · intro j p hj hle _
        injection hj with hj
        subst hj
        exact absurd hle (by omega)
    · rw [if_neg hlen]
      rcases hu : u32_from_str ((e.params.drop (i + marker.length)).take 4)
        with _ | p0
      · refine ⟨?_, ?_, ?_, ?_⟩
        · intro h
          cases h
        · constructor
          · intro h
            cases h
          · rintro ⟨j, hj, hlt⟩
            injection hj with hj
            subst hj
            exact absurd hlt hlen
        · intro _ _ _ _
          rfl
        · intro j p hj hle hu2
          injection hj with hj
          subst hj
          rw [hu2] at hu
          cases hu
      · have hok : ∀ r : ExtractResult,
            (match e.event_id with
              | EventId.CandidateIncluded =>
                ExtractResult.ok ⟨e.block_num, p0, true⟩
              | EventId.CandidateBacked =>
                ExtractResult.ok ⟨e.block_num, p0, false⟩
              | EventId.CandidateTimedOut => ExtractResult.discard) = r →
            r ≠ .panic := by
          intro r hr
          rcases he : e.event_id <;> rw [he] at hr <;> rw [← hr] <;> simp
        refine ⟨?_, ?_, ?_, ?_⟩
        · intro h
          cases h
        · constructor
          · intro h
            exact absurd rfl (hok _ h)
          · rintro ⟨j, hj, hlt⟩
            injection hj with hj
            subst hj
            exact absurd hlt hlen
        · intro j hj hle hu2
          injection hj with hj
          subst hj
          rw [hu2] at hu
          cases hu
        · intro j p hj hle hu2
          injection hj with hj
          subst hj
          rw [hu2] at hu
          injection hu with hp
          subst hp
          refine ⟨fun he => ?_, fun he => ?_, fun he => ?_⟩ <;> rw [he]

/-- C5, witness for the amended theorem: a marker-less record is discarded, a
record with only 2 characters after the marker panics, a non-numeric
4-character slice is discarded, and a well-formed record yields the typed
event. -/
theorem C5_witness :
    try_from ⟨3, .CandidateBacked, "no marker here".toList⟩ = .discard ∧
    try_from ⟨3, .CandidateBacked, "\"para_id\":77".toList⟩ = .panic ∧
    try_from ⟨3, .CandidateBacked, "\"para_id\":20x3".toList⟩ = .discard ∧
    try_from ⟨5, .CandidateIncluded, "\"para_id\":2023".toList⟩ =
      .ok ⟨5, 2023, true⟩ :=
  ⟨(C5_amended ⟨3, .CandidateBacked, "no marker here".toList⟩).1 (by decide),
   (C5_amended ⟨3, .CandidateBacked, "\"para_id\":77".toList⟩).2.1.mpr
     ⟨0, by decide, by decide⟩,
   (C5_amended ⟨3, .CandidateBacked, "\"para_id\":20x3".toList⟩).2.2.1 0
     (by decide) (by decide) (by decide),
   ((C5_amended ⟨5, .CandidateIncluded, "\"para_id\":2023".toList⟩).2.2.2 0 2023
     (by decide) (by decide) (by decide)).1 rfl⟩

/-- C8, counterexample: the claim says a `CandidateTimedOut` event is discarded
regardless of its `params` content; but the para_id extraction runs before the
kind classification, so a `CandidateTimedOut` record whose `params` has fewer
than 4 characters after the marker panics instead of being discarded. -/
theorem C8_counterexample :
    try_from ⟨2, .CandidateTimedOut, "\"para_id\":9".toList⟩ = .panic ∧
    try_from ⟨2, .CandidateTimedOut, "\"para_id\":9".toList⟩ ≠ .discard := by
  exact ⟨by decide, by decide⟩

/-- C8, amended: a `CandidateTimedOut` event is either discarded or (on a
short-after-marker `params`) panics, and in particular never appears in the
normalized `InclusionEvent` output. -/
theorem C8_amended (e : RawInclusionEvent)
    (h : e.event_id = .CandidateTimedOut) :
    (try_from e = .discard ∨ try_from e = .panic) ∧
    ∀ ev, try_from e ≠ .ok ev := by
  unfold try_from
  rcases hf : findSubstr marker e.params with _ | i
  · exact ⟨Or.inl rfl, fun ev => by simp⟩
  · dsimp only
    by_cases hlen : e.params.length < i + marker.length + 4
    · rw [if_pos hlen]
      exact ⟨Or.inr rfl, fun ev => by simp⟩
    · rw [if_neg hlen]
      rcases hu : u32_from_str ((e.params.drop (i + marker.length)).take 4) with _ | p
      · exact ⟨Or.inl rfl, fun ev => by simp⟩
      · rw [h]
        exact ⟨Or.inl rfl, fun ev => by simp⟩

/-- C8, witness for the amended theorem: a well-formed `CandidateTimedOut`
record is discarded, not emitted. -/
theorem C8_witness :
    try_from ⟨4, .CandidateTimedOut, "\"para_id\":1234".toList⟩ = .discard ∧
    try_from ⟨4, .CandidateTimedOut, "\"para_id\":1234".toList⟩ ≠
      .ok ⟨4, 1234, true⟩ :=
  ⟨(C8_amended ⟨4, .CandidateTimedOut, "\"para_id\":1234".toList⟩ rfl).1.resolve_right
     (by decide),
   (C8_amended ⟨4, .CandidateTimedOut, "\"para_id\":1234".toList⟩ rfl).2
     ⟨4, 1234, true⟩⟩

/-- C1, counterexample: the claim says a row whose validator index is out of
range (or whose session is unresolved) is dropped while the remaining rows are
still produced and the run does not fail; but with `SessionKeyCache[5]` having
2 entries, the row `{session 5, validator_index 2}` makes
`account_map[&5][2]` panic: the run fails and not even the resolvable second
row is produced. -/
theorem C1_counterexample :
    handle_disputes_join
        (fun s => if s = 5 then some ([10, 20] : List Nat) else none)
        [⟨5, 100, 2⟩, ⟨5, 101, 1⟩] = ([], true) ∧
    ([] : List (DisputeInitiator Nat)) ≠
      ([⟨5, 100, 2⟩, ⟨5, 101, 1⟩] : List DisputeInitiated).filterMap
        (resolve_initiator
          (fun s => if s = 5 then some ([10, 20] : List Nat) else none)) := by
  exact ⟨by decide, by decide⟩

/-- C1, amended: in the dispute identity-resolution join, a row whose
`validator_index` is out of range of the cached validator list for its
session, or whose session was never resolved, causes the run to panic while
writing the output; only the rows before the first such row are produced.
When every row resolves, all rows are produced and the run does not fail. -/
theorem C1_amended {A : Type} (account_map : Nat → Option (List A))
    (l : List DisputeInitiated) :
    ((∀ i ∈ l, (resolve_initiator account_map i).isSome) →
      handle_disputes_join account_map l =
        (l.filterMap (resolve_initiator account_map), false)) ∧
    ((∃ i ∈ l, resolve_initiator account_map i = none) →
      (handle_disputes_join account_map l).2 = true) ∧
    (handle_disputes_join account_map l).1 =
      (l.takeWhile fun i => (resolve_initiator account_map i).isSome).filterMap
        (resolve_initiator account_map) := by
  induction l with
  | nil =>
    refine ⟨fun _ => rfl, fun h => ?_, rfl⟩
    rcases h with ⟨i, hi, _⟩
    cases hi
  | cons i rest ih =>
    rcases hr : resolve_initiator account_map i with _ | r
    · refine ⟨?_, ?_, ?_⟩
      · intro h
        have hh := h i (List.mem_cons_self i rest)
        rw [hr] at hh
        simp at hh
      · intro _
        simp [handle_disputes_join, hr]
      · simp [handle_disputes_join, hr]
    · refine ⟨?_, ?_, ?_⟩
      · intro h
        have hrest := ih.1 fun j hj => h j (List.mem_cons_of_mem _ hj)
        simp [handle_disputes_join, hr, hrest]
      · rintro ⟨j, hj, hjnone⟩
        rcases List.mem_cons.mp hj with rfl | hj'
        · rw [hr] at hjnone
          cases hjnone
        · have := ih.2.1 ⟨j, hj', hjnone⟩
          simp [handle_disputes_join, hr, this]
      · simp [handle_disputes_join, hr, ih.2.2]

/-- C1, witness for the amended theorem: with a 3-entry validator list for
session 5, the row `{session 5, validator_index 2}` resolves and the run
completes without failure. -/
theorem C1_witness :
    handle_disputes_join
        (fun s => if s = 5 then some ([10, 20, 30] : List Nat) else none)
        [⟨5, 100, 2⟩] =
      (([⟨5, 100, 2⟩] : List DisputeInitiated).filterMap
        (resolve_initiator
          (fun s => if s = 5 then some ([10, 20, 30] : List Nat) else none)),
       false) :=
  (C1_amended (fun s => if s = 5 then some ([10, 20, 30] : List Nat) else none)
    [⟨5, 100, 2⟩]).1 (by decide)

/-- The memoization invariant of `historical_account_keys_go`: for a session
`s` whose external lookup always succeeds, the lookup is never invoked for `s`
when the map already has an entry for `s`, and is invoked at most once for `s`
overall. -/
theorem historical_go_count {A H : Type} (lookup : Nat → H → Option (List A))
    (s : Nat) (hs : ∀ h, (lookup s h).isSome) :
    ∀ (input : List (Nat × H)) (map : List (Nat × List A)),
      ((List.lookup s map).isSome →
        (historical_account_keys_go lookup input map).2.count s = 0) ∧
      (historical_account_keys_go lookup input map).2.count s ≤ 1
  | [], map => by simp [historical_account_keys_go]
  | (s', h) :: rest, map => by
    rcases hm : List.lookup s' map with _ | keys0
    · rcases hl : lookup s' h with _ | keys
      · have hne : s' ≠ s := by
          rintro rfl
          have hx := hs h
          rw [hl] at hx
          simp at hx
        have ih := historical_go_count lookup s hs rest map
        simp only [historical_account_keys_go, hm, hl]
        constructor
        · intro hsome
          simp [List.count_cons, hne, ih.1 hsome]
        · simpa [List.count_cons, hne] using ih.2
      · have ih := historical_go_count lookup s hs rest (map ++ [(s', keys)])
        simp only [historical_account_keys_go, hm, hl]
        by_cases he : s' = s
        · subst he
          have hsome' : (List.lookup s' (map ++ [(s', keys)])).isSome := by
            rw [List.lookup_append, hm]
            simp
          have hzero := ih.1 hsome'
          constructor
          · intro hsome
            rw [hm] at hsome
            simp at hsome
          · simp [List.count_cons, hzero]
        · have hmap : List.lookup s (map ++ [(s', keys)]) = List.lookup s map := by
            rw [List.lookup_append]
            have hss : (s == s') = false :=
              beq_eq_false_iff_ne.mpr fun hh => he hh.symm
            have : List.lookup s [(s', keys)] = none := by
              simp [List.lookup, hss]
            rw [this]
            cases List.lookup s map <;> simp
          constructor
          · intro hsome
            have := ih.1 (by rw [hmap]; exact hsome)
            simp [List.count_cons, he, this]
          · simpa [List.count_cons, he] using ih.2
    · have ih := historical_go_count lookup s hs rest map
      simp only [historical_account_keys_go, hm]
      exact ih

/-- C2, counterexample: the claim says the external session-key lookup is
invoked at most once per distinct session; but when the lookup returns `None`
(the `TODO: handle None` path) the cache entry stays vacant, so two rows with
session 5 trigger two invocations. -/
theorem C2_counterexample :
    (historical_account_keys (fun _ (_ : Nat) => (none : Option (List Nat)))
        [(5, 0), (5, 0)]).2.count 5 = 2 ∧
    ¬ (historical_account_keys (fun _ (_ : Nat) => (none : Option (List Nat)))
        [(5, 0), (5, 0)]).2.count 5 ≤ 1 := by
  exact ⟨by decide, by decide⟩

/-- C2, amended: for every session whose external lookup succeeds (returns
`Some` for every block hash), the lookup is invoked at most once for that
session across the whole run; later rows with the same session are served from
the cache.  (A session whose lookup returns `None` may be looked up again.) -/
theorem C2_amended {A H : Type} (lookup : Nat → H → Option (List A))
    (input : List (Nat × H)) (s : Nat) (hs : ∀ h, (lookup s h).isSome) :
    (historical_account_keys lookup input).2.count s ≤ 1 :=
  (historical_go_count lookup s hs input []).2

/-- C2, witness for the amended theorem: a successful lookup is performed
at most once for session 5 even though two rows reference it. -/
theorem C2_witness :
    (historical_account_keys (fun s (_ : Nat) => some [s])
        [(5, 0), (5, 0), (7, 1)]).2.count 5 ≤ 1 :=
  C2_amended (fun s (_ : Nat) => some [s]) [(5, 0), (5, 0), (7, 1)] 5
    (fun _ => rfl)

/-- Every page request in a non-panicking run of the inclusion/backing fetch
loop is immediately followed by the 150ms sleep. -/
theorem inclusion_trace_delay (provider : Nat → List RawInclusionEvent)
    (para enough : Nat) :
    ∀ (fuel : Nat) (acc : List InclusionEvent) (cursor : Nat),
      (fetch_inclusion_loop provider para enough fuel acc cursor).1 ≠ .panicked →
      delayAfterEveryRequest
        (fetch_inclusion_loop provider para enough fuel acc cursor).2 = true
  | 0, _, _ => fun _ => rfl
  | fuel + 1, acc, cursor => by
    intro hnp
    rw [fetch_inclusion_loop] at hnp ⊢
    by_cases hle : enough ≤ acc.length
    · rw [if_pos hle]
      rfl
    · rw [if_neg hle] at hnp ⊢
      revert hnp
      rcases processPage (provider cursor) para with _ | newEvents
      · intro hnp
        exact absurd rfl hnp
      · intro hnp
        dsimp only at hnp ⊢
        have := inclusion_trace_delay provider para enough fuel
          (acc ++ newEvents) (wrap_dec cursor) hnp
        simpa [delayAfterEveryRequest] using this

/-- Every page request of the dispute fetch loop is immediately followed by
the 150ms sleep, except a final request whose page came back empty (the
`break` before the sleep). -/
theorem disputes_trace_delay (provider : Nat → List DisputeEvent)
    (enough : Nat) :
    ∀ (fuel : Nat) (acc : List DisputeEvent) (page : Nat),
      delayExceptFinalEmpty
        (fetch_disputes_loop provider enough fuel acc page).2 = true
  | 0, _, _ => rfl
  | fuel + 1, acc, page => by
    rw [fetch_disputes_loop]
    by_cases hle : enough ≤ acc.length
    · rw [if_pos hle]
      rfl
    · rw [if_neg hle]
      by_cases hne : (provider page).isEmpty
      · simp [hne, delayExceptFinalEmpty]
      · have := disputes_trace_delay provider enough fuel
          (acc ++ provider page) (page + 1)
        simp [hne, delayExceptFinalEmpty, this]

/-- C3, counterexample: the claim says both fetch loops sleep 150ms after
every page request, including the last; but when the dispute fetch's first
page comes back empty the loop breaks before the sleep, so the (successful)
run ends with a request not followed by any delay. -/
theorem C3_counterexample :
    delayAfterEveryRequest (fetch_disputes_events (fun _ => []) 1 5).2 = false ∧
    (fetch_disputes_events (fun _ => []) 1 5).1.isOk = true := by
  exact ⟨by decide, by decide⟩

/-- C3, amended: in the inclusion/backing fetch every page request of a run
that does not abort by a normalization panic is followed by the 150ms delay
(including the last); in the dispute fetch every page request is followed by
the delay except the final request of a run terminated by an empty page,
where the loop breaks before sleeping. -/
theorem C3_amended :
    (∀ (provider : Nat → List RawInclusionEvent) (para enough fuel : Nat)
        (acc : List InclusionEvent) (cursor : Nat),
      (fetch_inclusion_loop provider para enough fuel acc cursor).1 ≠ .panicked →
      delayAfterEveryRequest
        (fetch_inclusion_loop provider para enough fuel acc cursor).2 = true) ∧
    (∀ (provider : Nat → List DisputeEvent) (enough fuel : Nat)
        (acc : List DisputeEvent) (page : Nat),
      delayExceptFinalEmpty
        (fetch_disputes_loop provider enough fuel acc page).2 = true) :=
  ⟨fun provider para enough fuel acc cursor =>
      inclusion_trace_delay provider para enough fuel acc cursor,
   fun provider enough fuel acc page =>
      disputes_trace_delay provider enough fuel acc page⟩

/-- C3, witness for the amended theorem at concrete loops. -/
theorem C3_witness :
    delayAfterEveryRequest
      (fetch_inclusion_loop (fun _ => []) 7 1 3 [] 10).2 = true ∧
    delayExceptFinalEmpty
      (fetch_disputes_loop (fun p => [⟨p, 0⟩]) 2 5 [] 0).2 = true :=
  ⟨C3_amended.1 (fun _ => []) 7 1 3 [] 10 (by decide),
   C3_amended.2 (fun p => [⟨p, 0⟩]) 2 5 [] 0⟩

/-- C6, counterexample: the claim quantifies over every minCount N; for
`N = 0` the termination check `events.len() < enough_events` fails before the
first iteration, so the fetch issues zero page requests, not exactly one. -/
theorem C6_counterexample :
    (fetch_inclusion_events (fun _ => []) 7 0 5 100).1 = .ok [] ∧
    requestCount (fetch_inclusion_events (fun _ => []) 7 0 5 100).2 = 0 := by
  exact ⟨by decide, by decide⟩

/-- C6, amended: for every minCount `N ≥ 1`, if the provider's very first page
yields `N` valid (post-filter) events, both the inclusion/backing fetch and
the dispute fetch issue exactly one page request and then terminate normally. -/
theorem C6_amended :
    (∀ (provider : Nat → List RawInclusionEvent)
        (para N fuel up_to_block : Nat) (l : List InclusionEvent),
      1 ≤ N → 2 ≤ fuel →
      processPage (provider up_to_block) para = some l → l.length = N →
      (fetch_inclusion_events provider para N fuel up_to_block).1.isOk = true ∧
      requestCount
        (fetch_inclusion_events provider para N fuel up_to_block).2 = 1) ∧
    (∀ (provider : Nat → List DisputeEvent) (N fuel : Nat),
      1 ≤ N → 2 ≤ fuel → (provider 0).length = N →
      (fetch_disputes_events provider N fuel).1.isOk = true ∧
      requestCount (fetch_disputes_events provider N fuel).2 = 1) := by
  constructor
  · intro provider para N fuel up_to_block l hN hfuel hp hl
    obtain ⟨f, rfl⟩ : ∃ f, fuel = f + 2 := ⟨fuel - 2, by omega⟩
    have h0 : ¬ (N ≤ ([] : List InclusionEvent).length) := by simp; omega
    have h1 : N ≤ (([] : List InclusionEvent) ++ l).length := by simp [hl]
    have hloop : fetch_inclusion_loop provider para N (f + 2) [] up_to_block =
        (.ok ([] ++ l), [.request up_to_block l.length, .sleep]) := by
      rw [fetch_inclusion_loop, if_neg h0, hp]
      simp only
      rw [fetch_inclusion_loop, if_pos h1]
    rw [fetch_inclusion_events, hloop]
    exact ⟨rfl, by simp [requestCount, List.countP_cons, Action.isRequest]⟩
  · intro provider N fuel hN hfuel hl
    obtain ⟨f, rfl⟩ : ∃ f, fuel = f + 2 := ⟨fuel - 2, by omega⟩
    have h0 : ¬ (N ≤ ([] : List DisputeEvent).length) := by simp; omega
    have h1 : N ≤ (([] : List DisputeEvent) ++ provider 0).length := by
      simp [hl]
    have hne : (provider 0).isEmpty = false := by
      rcases hp0 : provider 0 with _ | ⟨e, es⟩
      · rw [hp0] at hl
        simp at hl
        omega
      · rfl
    have hloop : fetch_disputes_loop provider N (f + 2) [] 0 =
        (.ok ([] ++ provider 0), [.request 0 (provider 0).length, .sleep]) := by
      rw [fetch_disputes_loop, if_neg h0]
      simp only [hne, Bool.false_eq_true, if_false]
      rw [fetch_disputes_loop, if_pos h1]
    rw [fetch_disputes_events, hloop]
    exact ⟨rfl, by simp [requestCount, List.countP_cons, Action.isRequest]⟩

/-- C6, witness for the amended theorem at concrete providers. -/
theorem C6_witness :
    ((fetch_inclusion_events
        (fun b => [⟨b, .CandidateIncluded, "\"para_id\":0007,x".toList⟩])
        7 1 5 100).1.isOk = true ∧
      requestCount (fetch_inclusion_events
        (fun b => [⟨b, .CandidateIncluded, "\"para_id\":0007,x".toList⟩])
        7 1 5 100).2 = 1) ∧
    ((fetch_disputes_events (fun p => [⟨p + 1, 0⟩]) 1 5).1.isOk = true ∧
      requestCount (fetch_disputes_events (fun p => [⟨p + 1, 0⟩]) 1 5).2 = 1) :=
  ⟨C6_amended.1
      (fun b => [⟨b, .CandidateIncluded, "\"para_id\":0007,x".toList⟩])
      7 1 5 100 [⟨100, 7, true⟩] (by decide) (by decide) (by decide) (by decide),
   C6_amended.2 (fun p => [⟨p + 1, 0⟩]) 1 5 (by decide) (by decide) (by decide)⟩

/-- C9: in extrinsic expansion, for every response with non-null data the
first entry of `params` is taken unconditionally (`data.params.remove(0)`);
if that list is empty the whole operation panics (result `none`) instead of
skipping the record, while the skip-and-continue tolerance applies only to
null responses — every non-null response is implicitly required to carry a
non-empty `params` list. -/
theorem C9_first_param_unconditional :
    (∀ (f : DisputeEvent → Option ExtrinsicData) (events : List DisputeEvent)
        (ev : DisputeEvent) (data : ExtrinsicData),
      ev ∈ events → f ev = some data → data.params = [] →
      fetch_dispute_initiators f events = none) ∧
    (∀ (f : DisputeEvent → Option ExtrinsicData) (events : List DisputeEvent),
      (∀ ev ∈ events, ∀ data, f ev = some data → data.params ≠ []) →
      fetch_dispute_initiators f events =
        some (events.flatMap fun ev =>
          match f ev with
          | none => []
          | some data => dispute_rows ev.block_num (data.params.headD []))) := by
  constructor
  · intro f events
    induction events with
    | nil => intro ev data h; cases h
    | cons e rest ih =>
      intro ev data hmem hf hempty
      rcases List.mem_cons.mp hmem with rfl | hmem'
      · simp only [fetch_dispute_initiators, hf, hempty]
      · simp only [fetch_dispute_initiators]
        rcases hfe : f e with _ | d
        · exact ih ev data hmem' hf hempty
        · rcases hdp : d.params with _ | ⟨ps, tl⟩
          · simp [hdp]
          · rw [ih ev data hmem' hf hempty]
            simp [hdp]
  · intro f events
    induction events with
    | nil => intro _; rfl
    | cons e rest ih =>
      intro h
      have hrest := ih fun ev hm data hd => h ev (List.mem_cons_of_mem _ hm) data hd
      rcases hfe : f e with _ | d
      · simp only [fetch_dispute_initiators, hfe, hrest, List.flatMap_cons,
          List.nil_append]
      · rcases hdp : d.params with _ | ⟨ps, tl⟩
        · exact absurd hdp (h e (List.mem_cons_self e rest) d hfe)
        · simp only [fetch_dispute_initiators, hfe, hdp, hrest, List.flatMap_cons,
            List.headD_cons]
          rfl

/-- C9, witness: an extrinsic response with non-null data and an empty
`params` list panics the whole expansion; a well-formed one yields its rows
from the first `params` entry (`Invalid`-tagged statements only). -/
theorem C9_witness :
    fetch_dispute_initiators (fun _ => some ⟨[]⟩) [⟨3, 1⟩] = none ∧
    fetch_dispute_initiators
        (fun _ => some ⟨[[⟨2, [⟨[.Invalid], 4⟩, ⟨[.Valid], 9⟩]⟩]]⟩)
        [⟨3, 1⟩] = some [⟨2, 3, 4⟩] :=
  ⟨C9_first_param_unconditional.1 (fun _ => some ⟨[]⟩) [⟨3, 1⟩] ⟨3, 1⟩ ⟨[]⟩
      (by decide) rfl rfl,
   (C9_first_param_unconditional.2
      (fun _ => some ⟨[[⟨2, [⟨[.Invalid], 4⟩, ⟨[.Valid], 9⟩]⟩]]⟩) [⟨3, 1⟩]
      (by intro ev hm data hdata; injection hdata with hh; rw [← hh]; simp)).trans
    (by decide)⟩

/-- With a provider whose every page yields zero post-filter events and a
positive minCount, the inclusion fetch loop never exits within its fuel and
the block numbers it pins are exactly the iterated wrapping decrements of the
start cursor. -/
theorem zero_yield_loop (provider : Nat → List RawInclusionEvent)
    (para enough : Nat)
    (hzero : ∀ b, processPage (provider b) para = some [])
    (hpos : 1 ≤ enough) :
    ∀ (fuel cursor : Nat),
      (fetch_inclusion_loop provider para enough fuel [] cursor).1 = .fuelOut ∧
      requestPoints
        (fetch_inclusion_loop provider para enough fuel [] cursor).2 =
          cursorIter fuel cursor
  | 0, cursor => ⟨rfl, rfl⟩
  | fuel + 1, cursor => by
    have h0 : ¬ (enough ≤ ([] : List InclusionEvent).length) := by
      simp
      omega
    rw [fetch_inclusion_loop, if_neg h0, hzero cursor]
    dsimp only
    have ih := zero_yield_loop provider para enough hzero hpos fuel
      (wrap_dec cursor)
    exact ⟨ih.1, by simp [requestPoints, cursorIter, ih.2]⟩

/-- Element `k` of the iterated-decrement cursor sequence. -/
theorem cursorIter_getElem? :
    ∀ (f c k : Nat), k < f → (cursorIter f c)[k]? = some (wrapIter k c)
  | 0, _, k => fun h => absurd h (Nat.not_lt_zero k)
  | _ + 1, _, 0 => fun _ => by simp [cursorIter, wrapIter]
  | f + 1, c, k + 1 => fun h => by
    simp only [cursorIter, List.getElem?_cons_succ]
    exact cursorIter_getElem? f (wrap_dec c) k (by omega)

/-- As long as the decrement does not cross zero, iterating it is plain
subtraction. -/
theorem wrapIter_le : ∀ (k c : Nat), k ≤ c → wrapIter k c = c - k
  | 0, c, _ => by simp [wrapIter]
  | k + 1, c, h => by
    have hc : c ≠ 0 := by omega
    rw [wrapIter, wrap_dec, if_neg hc, wrapIter_le k (c - 1) (by omega)]
    omega

/-- The iterated decrement commutes with one more decrement. -/
theorem wrapIter_succ : ∀ (k c : Nat), wrapIter (k + 1) c = wrap_dec (wrapIter k c)
  | 0, _ => rfl
  | k + 1, c => by
    simp only [wrapIter]
    exact wrapIter_succ k (wrap_dec c)

/-- After `c` decrements the cursor reaches 0; the next decrement wraps to
`2 ^ 32 - 1`. -/
theorem wrapIter_underflow (c : Nat) : wrapIter (c + 1) c = U32_MOD - 1 := by
  rw [wrapIter_succ, wrapIter_le c c (Nat.le_refl c), Nat.sub_self]
  rfl

/-- C10: the inclusion/backing fetch loop terminates only via the
accumulated-event-count condition: with a provider whose every page yields
zero matching events (and a positive minCount) the loop never exits normally
for any fuel; its block cursor is decremented once per iteration, so the
request at iteration `up_to_block + 1` pins block 0 and the following
decrement underflows the u32 cursor, wrapping the next pinned block to
`2 ^ 32 - 1`. -/
theorem C10_nontermination (provider : Nat → List RawInclusionEvent)
    (para enough up_to_block fuel : Nat)
    (hzero : ∀ b, processPage (provider b) para = some [])
    (hpos : 1 ≤ enough) :
    (fetch_inclusion_loop provider para enough fuel [] up_to_block).1 =
      .fuelOut ∧
    requestPoints
      (fetch_inclusion_loop provider para enough fuel [] up_to_block).2 =
        cursorIter fuel up_to_block ∧
    (up_to_block + 2 ≤ fuel →
      (cursorIter fuel up_to_block)[up_to_block]? = some 0 ∧
      (cursorIter fuel up_to_block)[up_to_block + 1]? = some (U32_MOD - 1)) := by
  refine ⟨(zero_yield_loop provider para enough hzero hpos fuel up_to_block).1,
    (zero_yield_loop provider para enough hzero hpos fuel up_to_block).2,
    fun hf => ⟨?_, ?_⟩⟩
  · rw [cursorIter_getElem? fuel up_to_block up_to_block (by omega),
      wrapIter_le up_to_block up_to_block (Nat.le_refl _), Nat.sub_self]
  · rw [cursorIter_getElem? fuel up_to_block (up_to_block + 1) (by omega),
      wrapIter_underflow]

/-- C10, witness: with fuel 3, start cursor 1 and an always-empty provider the
loop is still running when the fuel runs out, and the third request would pin
block `2 ^ 32 - 1`. -/
theorem C10_witness :
    (fetch_inclusion_loop (fun _ => []) 0 1 3 [] 1).1 = .fuelOut ∧
    (cursorIter 3 1)[2]? = some (U32_MOD - 1) :=
  ⟨(C10_nontermination (fun _ => []) 0 1 1 3 (fun _ => rfl) (by decide)).1,
   ((C10_nontermination (fun _ => []) 0 1 1 3 (fun _ => rfl) (by decide)).2.2
      (by decide)).2⟩

/-- Members of a successfully processed page all carry the target para_id. -/
theorem processPage_para {page : List RawInclusionEvent} {para : Nat}
    {l : List InclusionEvent} (h : processPage page para = some l) :
    ∀ e ∈ l, e.para_id = para := by
  unfold processPage at h
  split at h
  · cases h
  · injection h with h1
    subst h1
    intro e he
    have hm := List.mem_filter.mp he
    simpa using hm.2

/-- The accumulated events of a normally terminating inclusion fetch loop all
carry the target para_id (given that the incoming accumulator does). -/
theorem fetch_inclusion_loop_ok_para (provider : Nat → List RawInclusionEvent)
    (para enough : Nat) :
    ∀ (fuel : Nat) (acc : List InclusionEvent) (cursor : Nat)
      (out : List InclusionEvent),
      (∀ e ∈ acc, e.para_id = para) →
      (fetch_inclusion_loop provider para enough fuel acc cursor).1 = .ok out →
      ∀ e ∈ out, e.para_id = para
  | 0, acc, cursor, out => by
    intro _ heq
    cases heq
  | fuel + 1, acc, cursor, out => by
    intro hacc heq
    rw [fetch_inclusion_loop] at heq
    by_cases hle : enough ≤ acc.length
    · rw [if_pos hle] at heq
      injection heq with h1
      subst h1
      exact hacc
    · rw [if_neg hle] at heq
      revert heq
      rcases hp : processPage (provider cursor) para with _ | newEvents
      · intro heq
        cases heq
      · intro heq
        dsimp only at heq
        have hacc' : ∀ e ∈ acc ++ newEvents, e.para_id = para := by
          intro e he
          rcases List.mem_append.mp he with hm | hm
          · exact hacc e hm
          · exact processPage_para hp e hm
        exact fetch_inclusion_loop_ok_para provider para enough fuel
          (acc ++ newEvents) (wrap_dec cursor) out hacc' heq

/-- C7: on success, the inclusion/backing fetch returns a sequence that is
strictly sorted ascending by (block_num, para_id, included), contains no
duplicate events, and in which every event's para_id equals the requested
target — the sort-and-dedup and para_id filter establish the interval
reconstructor's precondition. -/
theorem C7_sorted_unique_filtered (provider : Nat → List RawInclusionEvent)
    (para enough fuel up_to_block : Nat) (out : List InclusionEvent)
    (tr : List Action)
    (h : fetch_inclusion_events provider para enough fuel up_to_block =
      (.ok out, tr)) :
    out.Sorted (fun a b => a.lt b = true) ∧ out.Nodup ∧
      ∀ e ∈ out, e.para_id = para := by
  rw [fetch_inclusion_events] at h
  rcases hl : fetch_inclusion_loop provider para enough fuel [] up_to_block
    with ⟨res, tr0⟩
  rw [hl] at h
  cases res with
  | panicked =>
    injection h with h1 _
    cases h1
  | fuelOut =>
    injection h with h1 _
    cases h1
  | ok events =>
    dsimp only at h
    injection h with h1 _
    injection h1 with h1
    subst h1
    have hpair_le :
        (events.reverse.insertionSort fun a b => a.le b = true).Pairwise
          (fun a b => a.le b = true) := by
      haveI : IsTotal InclusionEvent (fun a b => a.le b = true) :=
        ⟨fun a b => by simpa using InclusionEvent.le_total_bool a b⟩
      haveI : IsTrans InclusionEvent (fun a b => a.le b = true) :=
        ⟨fun a b c hab hbc => InclusionEvent.le_trans_bool a b c hab hbc⟩
      exact List.sorted_insertionSort _ _
    have hsub :
        List.Sublist
          ((events.reverse.insertionSort fun a b => a.le b = true).destutter
            (· ≠ ·))
          (events.reverse.insertionSort fun a b => a.le b = true) :=
      List.destutter_sublist _ (events.reverse.insertionSort fun a b => a.le b = true)
    have hchain_ne :
        (((events.reverse.insertionSort fun a b => a.le b = true).destutter
          (· ≠ ·))).Chain' (· ≠ ·) :=
      List.destutter_is_chain' _
        (events.reverse.insertionSort fun a b => a.le b = true)
    have hchain_le :
        (((events.reverse.insertionSort fun a b => a.le b = true).destutter
          (· ≠ ·))).Chain' (fun a b => a.le b = true) :=
      (List.Pairwise.sublist hsub hpair_le).chain'
    have hchain_lt :
        (((events.reverse.insertionSort fun a b => a.le b = true).destutter
          (· ≠ ·))).Chain' (fun a b => a.lt b = true) :=
      (chain'_and _ hchain_ne hchain_le).imp fun a b hab =>
        InclusionEvent.lt_of_le_of_ne hab.2 hab.1
    have hpair_lt :
        (((events.reverse.insertionSort fun a b => a.le b = true).destutter
          (· ≠ ·))).Pairwise (fun a b => a.lt b = true) := by
      haveI : IsTrans InclusionEvent (fun a b => a.lt b = true) :=
        ⟨fun a b c => InclusionEvent.lt_trans_prop a b c⟩
      exact List.chain'_iff_pairwise.mp hchain_lt
    refine ⟨hpair_lt, hpair_lt.imp fun hab => InclusionEvent.ne_of_lt hab, ?_⟩
    intro e he
    have hm1 := hsub.subset he
    have hm2 : e ∈ events.reverse := (List.mem_insertionSort _).mp hm1
    have hm3 : e ∈ events := List.mem_reverse.mp hm2
    exact fetch_inclusion_loop_ok_para provider para enough fuel [] up_to_block
      events (by intro x hx; cases hx) (by rw [hl]) e hm3

/-- C7, witness at a concrete provider: the four fetched events come out
strictly sorted with no duplicates. -/
theorem C7_witness :
    ([⟨99, 7, false⟩, ⟨99, 7, true⟩, ⟨100, 7, false⟩, ⟨100, 7, true⟩] :
        List InclusionEvent).Sorted (fun a b => a.lt b = true) ∧
    ([⟨99, 7, false⟩, ⟨99, 7, true⟩, ⟨100, 7, false⟩, ⟨100, 7, true⟩] :
        List InclusionEvent).Nodup :=
  ⟨(C7_sorted_unique_filtered
      (fun b => [⟨b, .CandidateIncluded, "\"para_id\":0007,x".toList⟩,
        ⟨b, .CandidateBacked, "\"para_id\":0007,x".toList⟩])
      7 3 5 100
      [⟨99, 7, false⟩, ⟨99, 7, true⟩, ⟨100, 7, false⟩, ⟨100, 7, true⟩]
      [.request 100 2, .sleep, .request 99 2, .sleep] (by decide)).1,
   (C7_sorted_unique_filtered
      (fun b => [⟨b, .CandidateIncluded, "\"para_id\":0007,x".toList⟩,
        ⟨b, .CandidateBacked, "\"para_id\":0007,x".toList⟩])
      7 3 5 100
      [⟨99, 7, false⟩, ⟨99, 7, true⟩, ⟨100, 7, false⟩, ⟨100, 7, true⟩]
      [.request 100 2, .sleep, .request 99 2, .sleep] (by decide)).2.1⟩

end Kuddelmuddel
